import Mathlib

/-!
# Verification of the quiz application's rotation / retry / chunking logic

Shallow embedding of the core orchestration logic of the quiz SPA:

* `chunkText` — content chunker (`src/utils/pdf.js`)
* `rotSelect` — rotation-aware question selector (`quizTemplateService`,
  rotation version: `generateQuizFromTemplate`)
* quiz runner scoring and attempt recording (`Quiz.jsx` + `App.jsx`)
* `withRateLimitRetry` — exponential backoff (`src/utils/openai.js`)
* generation-time question validation and template storage
  (`openai.js` / `quizTemplateService.js`)

Strings are modelled as `List Char`; the engine's `Math.random()` streams are
modelled as explicit lists of numbers supplied as inputs; delays are rationals.
-/

namespace QuizApp

/-! ## JavaScript string primitives

`\s` and `String.prototype.trim` are modelled on their ASCII whitespace
subset (space, tab, newline, carriage return, vertical tab, form feed);
the Unicode space characters never occur in the texts considered here. -/

def jsWhitespace (c : Char) : Bool :=
  c = ' ' || c = '\t' || c = '\n' || c = '\r' || c = '\x0b' || c = '\x0c'

/-- All non-whitespace characters, in order (used to compare texts "ignoring
whitespace"). -/
def stripWS (cs : List Char) : List Char :=
  cs.filter (fun c => !jsWhitespace c)

/-- JS `String.prototype.trim`: strip leading and trailing whitespace. -/
def jsTrim (cs : List Char) : List Char :=
  ((cs.dropWhile jsWhitespace).reverse.dropWhile jsWhitespace).reverse

/-! ## Content Chunker — `chunkText(text, maxChunkSize)` (`src/utils/pdf.js`)

The source splits on the regex `/\n\s*\n|\.\s+/` (`text.split(...)`), which
*removes* every matched separator, then greedily accumulates the resulting
units into chunks.  `matchAt` decides whether the regex matches at the head
of the remaining text and returns the length of the (leftmost, greedy)
match, exactly as the JS engine does: the first alternative `\n\s*\n`
matches a newline, then greedily as much whitespace as possible such that a
final newline follows; the second alternative `\.\s+` matches a dot
followed by a maximal non-empty whitespace run. -/

/-- Index of the last occurrence of `c`, if any. -/
def lastIdxOf (c : Char) : List Char → Option Nat
  | [] => none
  | x :: xs =>
    match lastIdxOf c xs with
    | some i => some (i + 1)
    | none => if x = c then some 0 else none

/-- Length of the match of `/\n\s*\n|\.\s+/` at the head of `cs`, if any. -/
def matchAt : List Char → Option Nat
  | '\n' :: rest =>
    -- alternative 1: `\n\s*\n`, greedy `\s*` with backtracking: the final
    -- `\n` is the last newline inside the maximal whitespace run
    match lastIdxOf '\n' (rest.takeWhile jsWhitespace) with
    | some m => some (m + 2)
    | none => none
  | '.' :: rest =>
    -- alternative 2: `\.\s+`
    if (rest.takeWhile jsWhitespace).length = 0 then none
    else some ((rest.takeWhile jsWhitespace).length + 1)
  | _ => none

/-- JS `text.split(/\n\s*\n|\.\s+/)`: scan left to right, cutting the text at
every match and dropping the matched separator (JS `split` with a regex
without capture groups discards the separators).  The recursion is fuelled
by the text length so that it is structural (every step consumes at least
one character and at least one unit of fuel, so fuel `cs.length` never runs
out; `matchAt_pos` records that a match always has positive length). -/
def jsSplitGo : Nat → List Char → List Char → List (List Char)
  | _, [], acc => [acc.reverse]
  | 0, cs, acc => [(acc.reverse ++ cs)]
  | fuel + 1, c :: rest, acc =>
    match matchAt (c :: rest) with
    | some len => acc.reverse :: jsSplitGo fuel ((c :: rest).drop len) []
    | none => jsSplitGo fuel rest (c :: acc)

def jsSplit (cs : List Char) : List (List Char) := jsSplitGo cs.length cs []

/-- The accumulation loop of `chunkText`: for each unit, if appending it
would exceed the budget and the current chunk is non-empty, close (trim and
emit) the current chunk; then append the unit plus a space. At the end the
last chunk is emitted if its trimmed form is non-empty. -/
def chunkGo (maxChunkSize : Nat) : List (List Char) → List Char → List (List Char)
  | [], current => if (jsTrim current).length > 0 then [jsTrim current] else []
  | p :: ps, current =>
    if current.length + p.length > maxChunkSize ∧ current.length > 0 then
      jsTrim current :: chunkGo maxChunkSize ps (p ++ [' '])
    else
      chunkGo maxChunkSize ps (current ++ p ++ [' '])

def chunkText (text : List Char) (maxChunkSize : Nat) : List (List Char) :=
  chunkGo maxChunkSize (jsSplit text) []

/-! ## Backoff Invoker — `withRateLimitRetry` (`src/utils/openai.js`)

The loop is
```
while (retryCount <= maxRetries) {
  try { return await apiCallFn(); }
  catch (error) {
    if (error.status === 429) {
      retryCount++;
      if (retryCount > maxRetries) break;
      delay = Math.min(delay * 2, 60000) * (0.8 + Math.random() * 0.4);
      await sleep(delay);
    } else throw error;
  }
}
throw lastError;
```
Delays are rationals; the stream of `0.8 + Math.random() * 0.4` factors is
an explicit input list. -/

/-- One delay update of the source: the doubling is applied and capped
*before* the jitter factor, and the jittered value is stored back into
`delay` (so the next doubling compounds the jitter).  `Math.min(a, b)` is
written out as a comparison so that the definition evaluates by `decide`. -/
def nextDelay (d jitter : ℚ) : ℚ := (if d * 2 ≤ 60000 then d * 2 else 60000) * jitter

/-- The retry loop specialised to an operation that always fails with a
rate-limit (HTTP 429) error.  Returns how many times `operation()` was
called and the list of delays waited, in order, before the last error is
re-raised.  The structural fuel is `maxRetries + 1 - retryCount`, the exact
number of remaining loop iterations, so it never runs out. -/
def backoffGo : Nat → Nat → Nat → ℚ → List ℚ → Nat × List ℚ
  | 0, _, _, _, _ => (0, [])
  | fuel + 1, retryCount, maxRetries, delay, jitters =>
    -- one iteration: `operation()` is called and fails with status 429
    if retryCount + 1 > maxRetries then (1, [])
    else
      let d := nextDelay delay (jitters.headD 1)
      let rest := backoffGo fuel (retryCount + 1) maxRetries d jitters.tail
      (rest.1 + 1, d :: rest.2)

/-- Run of `withRateLimitRetry(alwaysRateLimited, maxRetries, initialDelay)`:
attempts made and delays waited. -/
def rateLimitRunAlways (maxRetries : Nat) (initialDelay : ℚ) (jitters : List ℚ) :
    Nat × List ℚ :=
  backoffGo (maxRetries + 1) 0 maxRetries initialDelay jitters

/-- The wait sequence as a simple chain: each wait is
`min (previous * 2) 60000 * jitter` and becomes the new `delay`. -/
def backoffWaits (d : ℚ) : List ℚ → List ℚ
  | [] => []
  | j :: js => nextDelay d j :: backoffWaits (nextDelay d j) js

/-! ## Rotation Selector — `generateQuizFromTemplate(pdf_id, count)`
(rotation version of `quizTemplateService`)

The selector reads the per-document list of previously used template
indices from local storage, prefers unused indices, tops up or resets when
the pool is (nearly) exhausted, Fisher–Yates-shuffles the candidates, takes
the first `count`, persists the union of used and newly selected indices,
and returns the selected questions together with UI indices `0..count-1`
and the original template indices in `metadata.templateSelectedIndices`.

Randomness is supplied explicitly: `rand` feeds the Fisher–Yates loop
(`Math.floor(Math.random() * (i + 1))` becomes `rand-entry % (i + 1)`), and
`usedShuffled` stands for the engine-dependent result of
`previouslyUsedIndices.sort(() => Math.random() - 0.5)`, an arbitrary
rearrangement of the used list (theorems assume it is a permutation of it). -/

/-- The in-place swap `[arr[i], arr[j]] = [arr[j], arr[i]]` of the
Fisher–Yates loop. -/
def listSwap (l : List Nat) (i j : Nat) : List Nat :=
  (l.set i (l.getD j 0)).set j (l.getD i 0)

/-- The Fisher–Yates loop of the source, counting `i` down from
`length - 1` to `1`; each step swaps position `i` with a random position
`j ≤ i`. -/
def fyGo : List Nat → Nat → List Nat → List Nat
  | l, 0, _ => l
  | l, i + 1, rs => fyGo (listSwap l (i + 1) (rs.headD 0 % (i + 2))) i rs.tail

def fisherYates (l : List Nat) (rs : List Nat) : List Nat := fyGo l (l.length - 1) rs

/-- JS `[...new Set(xs)]` — deduplicate keeping the first occurrence of each
element, in insertion order. -/
def dedupFirstGo : List Nat → List Nat → List Nat
  | [], _ => []
  | x :: xs, seen => if x ∈ seen then dedupFirstGo xs seen else x :: dedupFirstGo xs (x :: seen)

def dedupFirst (l : List Nat) : List Nat := dedupFirstGo l []

/-- Result of one `generateQuizFromTemplate` call (rotation version):
the served questions, the returned `selectedIndices` (UI numbering in the
randomized branch), the `metadata.templateSelectedIndices`, and the used
list written back to local storage. -/
structure RotSelection (α : Type) where
  questions : List α
  selectedIndices : List Nat
  templateSelectedIndices : Option (List Nat)
  newUsed : List Nat

/-- The unused-first candidate pool of `generateQuizFromTemplate`:
`availableIndices = allIndices.filter(i => !previouslyUsedIndices.includes(i))`;
if fewer than `count` remain, either reset entirely (when fewer than
`count * 0.5`, i.e. `2 * available < count`) or top up with the first
`count - available` entries of the randomly re-sorted used list.  Returns
the candidate pool together with the value of `previouslyUsedIndices` after
this block (reset to `[]`, or mutated in place by `sort`, or untouched). -/
def rotPool (n count : Nat) (used usedShuffled : List Nat) : List Nat × List Nat :=
  if ((List.range n).filter (fun i => decide (i ∉ used))).length < count then
    if 2 * ((List.range n).filter (fun i => decide (i ∉ used))).length < count then
      (List.range n, [])
    else
      ((List.range n).filter (fun i => decide (i ∉ used)) ++
        usedShuffled.take
          (count - ((List.range n).filter (fun i => decide (i ∉ used))).length),
        usedShuffled)
  else ((List.range n).filter (fun i => decide (i ∉ used)), used)

/-- The `generateQuizFromTemplate` selection logic, for a template with
question list `qs` and requested `count`, given the persisted used-index
list `used`. -/
def rotSelect {α : Type} [Inhabited α] (qs : List α) (count : Nat)
    (used usedShuffled rand : List Nat) : RotSelection α :=
  if qs.length ≤ count then
    -- not enough questions: return everything, indices `[0, 1, 2, ...]`
    { questions := qs
      selectedIndices := List.range qs.length
      templateSelectedIndices := none
      newUsed := used }
  else
    let availUsed := rotPool qs.length count used usedShuffled
    let indices := fisherYates availUsed.1 rand
    let selected := indices.take count
    let selectedQuestions := selected.map (fun i => qs.getD i default)
    { questions := selectedQuestions
      selectedIndices := List.range selectedQuestions.length
      templateSelectedIndices := some selected
      newUsed := dedupFirst (availUsed.2 ++ selected) }

/-- Repeated quiz attempts: run `rotSelect` once per entry of `rands`,
threading the persisted used list (starting from `used`), taking at each
call the stored list itself as the engine's rearrangement of it.  Returns
the template indices served by each call and the final stored list. -/
def rotRun {α : Type} [Inhabited α] (qs : List α) (count : Nat) :
    List (List Nat) → List Nat → List (List Nat) × List Nat
  | [], used => ([], used)
  | r :: rs, used =>
    let sel := rotSelect qs count used used r
    let rest := rotRun qs count rs sel.newUsed
    ((sel.templateSelectedIndices.getD sel.selectedIndices) :: rest.1, rest.2)

/-! ## Quiz Runner — `Quiz.jsx` scoring and `App.jsx` attempt recording -/

/-- A generated multiple-choice question as the quiz runner reads it
(`options` / `answer`; the legacy `choices` / `correctAnswer` fallbacks of
the component denote the same data). -/
structure Question where
  question : String
  options : List String
  answer : Nat
  explanation : String

instance : Inhabited Question := ⟨⟨"", [], 0, ""⟩⟩

/-- The fields of the `quiz` object that attempt recording reads:
`quiz.questions`, `quiz.selectedIndices`, and
`quiz.metadata.templateSelectedIndices` (absent when the quiz was not
UI-remapped). -/
structure QuizData (α : Type) where
  questions : List α
  selectedIndices : List Nat
  templateSelectedIndices : Option (List Nat)

def RotSelection.toQuizData {α : Type} (r : RotSelection α) : QuizData α :=
  ⟨r.questions, r.selectedIndices, r.templateSelectedIndices⟩

/-- In `App.jsx onQuizComplete`: the indices stored in the Attempt —
`quiz.metadata.templateSelectedIndices` when present, else
`quiz.selectedIndices`. -/
def recordedIndices (selectedIndices : List Nat) (metadata : Option (List Nat)) :
    List Nat :=
  match metadata with
  | some tsi => tsi
  | none => selectedIndices

/-- The Attempt row built by `App.jsx onQuizComplete` (identity fields such
as `user_id`, `pdf_id`, `pdf_name`, `template_id` are omitted): `score` and
`correct_answers` both receive the number of correct answers, and
`total_questions` is the literal `10` of the source. -/
structure AttemptRec where
  score : Nat
  correct_answers : Nat
  total_questions : Nat
  selected_question_indices : List Nat

instance : Inhabited AttemptRec := ⟨⟨0, 0, 0, []⟩⟩

def mkAttempt {α : Type} (quiz : QuizData α) (score : Nat) : AttemptRec :=
  { score := score
    correct_answers := score
    total_questions := 10
    selected_question_indices :=
      recordedIndices quiz.selectedIndices quiz.templateSelectedIndices }

/-- The `Quiz` component's state: `currentQuestionIndex`, `score`,
`selectedAnswer`, plus the list of Attempt rows saved so far by
`onQuizComplete` (the recording side effect lives in `App.jsx`). -/
structure QuizState where
  currentQuestionIndex : Nat
  score : Nat
  selectedAnswer : Option String
  attempts : List AttemptRec

def initQuizState : QuizState := ⟨0, 0, none, []⟩

/-- Scoring `selectedAnswer === answerOptions[correctAnswerIndex] ? 1 : 0` — the
selected option's *text* is compared with the option text at the correct
answer index; a missing selection (`null`) or an out-of-range answer index
never scores. -/
def scoreInc (q : Question) (selectedAnswer : Option String) : Nat :=
  match selectedAnswer with
  | none => 0
  | some s => if q.options[q.answer]? = some s then 1 else 0

/-- The `handleNextQuestion` handler of `Quiz.jsx`: adds the current question's score;
before the last question it advances and clears the selection; on the last
question it calls `onQuizComplete(newScore, pdfId)` — modelled as appending
the Attempt that `App.jsx` saves — without touching the component's own
state (there is no completion flag). -/
def handleNextQuestion (quiz : QuizData Question) (st : QuizState) : QuizState :=
  let q := quiz.questions.getD st.currentQuestionIndex default
  let newScore := st.score + scoreInc q st.selectedAnswer
  if st.currentQuestionIndex < quiz.questions.length - 1 then
    { st with
      score := newScore
      selectedAnswer := none
      currentQuestionIndex := st.currentQuestionIndex + 1 }
  else
    { st with attempts := st.attempts ++ [mkAttempt quiz newScore] }

/-- User/timer events: picking an option (`handleAnswerSelection`) and
submit-or-timeout (both the Next button and the 60-second timer expiry call
`handleNextQuestion`). -/
inductive QuizEvent
  | select (choice : String)
  | next

def quizStep (quiz : QuizData Question) (st : QuizState) : QuizEvent → QuizState
  | .select c => { st with selectedAnswer := some c }
  | .next => handleNextQuestion quiz st

def quizRun (quiz : QuizData Question) (st : QuizState)
    (events : List QuizEvent) : QuizState :=
  events.foldl (quizStep quiz) st

/-- Random-stream that makes every Fisher–Yates step pick `j = i` (no
swap): the identity shuffle, used to build concrete runs. -/
def idRand (len : Nat) : List Nat := (List.range len).reverse.dropLast

/-- A one-question quiz, for exercising double completion. -/
def c6Quiz : QuizData Question :=
  { questions := [⟨"q1", ["A", "B"], 0, ""⟩]
    selectedIndices := [0]
    templateSelectedIndices := none }

/-- A five-question quiz as produced when a template holds fewer than 10
questions (`selectedIndices = [0, 1, 2, 3, 4]`, no UI remap metadata). -/
def c7Quiz5 : QuizData Question :=
  { questions := List.replicate 5 ⟨"q", ["A", "B"], 0, ""⟩
    selectedIndices := [0, 1, 2, 3, 4]
    templateSelectedIndices := none }

/-- A ten-question quiz (the standard case). -/
def c7Quiz10 : QuizData Question :=
  { questions := List.replicate 10 ⟨"q", ["A", "B"], 0, ""⟩
    selectedIndices := List.range 10
    templateSelectedIndices := none }

/-- A question whose correct option text appears at two positions. -/
def c10q : Question := ⟨"Which letter?", ["A", "B", "A", "C"], 0, ""⟩

/-! ## Question validation and template storage
(`generateQuizQuestions` in `openai.js`, `storeQuizTemplate` in
`quizTemplateService.js`) -/

/-- A candidate question as delivered by the LLM (untrusted JSON).  Each
field records the JS value: `none` models a missing field or a value of
another type (`undefined`, `null`, object, ...); an answer can be a number
(`Sum.inl`) or a string (`Sum.inr`). -/
structure RawQuestion where
  question : Option String
  options : Option (List String)
  answer : Option (Int ⊕ String)
  correctAnswer : Option (Int ⊕ String)
  explanation : Option String
deriving DecidableEq

/-- The generation-time filter of `generateQuizQuestions`: question is a
string, options is an array of length exactly 4, answer is a number or a
string, explanation is a string.  There is no range check on the answer. -/
def openaiValidate (q : RawQuestion) : Bool :=
  q.question.isSome &&
  (match q.options with
    | some l => l.length == 4
    | none => false) &&
  q.answer.isSome &&
  q.explanation.isSome

/-- Whether the answer is a numeric index within bounds of the options list
(the property the claim asserts of every accepted candidate). -/
def answerInRange (q : RawQuestion) : Bool :=
  match q.answer, q.options with
  | some (Sum.inl n), some opts => decide (0 ≤ n) && decide (n.toNat < opts.length)
  | _, _ => false

/-- The validation filter of `storeQuizTemplate`: question a non-empty
(after trim) string, options an array with at least 2 entries, and either
`answer` or `correctAnswer` present (not `undefined`/`null`).  Again no
range check. -/
def storeValid (q : RawQuestion) : Bool :=
  (match q.question with
    | some s => !(jsTrim s.toList).isEmpty
    | none => false) &&
  (match q.options with
    | some l => 2 ≤ l.length
    | none => false) &&
  (q.answer.isSome || q.correctAnswer.isSome)

/-- A question as normalized by `storeQuizTemplate` before storage. -/
structure StoredQuestion where
  question : String
  options : List String
  answer : Option (Int ⊕ String)
  explanation : String
deriving DecidableEq

/-- The `storeQuizTemplate` normalization: standardize on `answer` (falling
back to `correctAnswer`), default the explanation; the answer value is
copied verbatim, never clamped or fixed. -/
def normalizeQ (q : RawQuestion) : StoredQuestion :=
  { question := q.question.getD ""
    options := q.options.getD []
    answer := if q.answer.isSome then q.answer else q.correctAnswer
    explanation := q.explanation.getD "" }

/-- Result of `storeQuizTemplate`: either the stored (validated and
normalized) questions, or the structured soft-failure object
`{error, pdfId}` that the surrounding `catch` returns. -/
inductive StoreResult
  | success (questions : List StoredQuestion)
  | failure (error : String)
deriving DecidableEq

/-- Model of `storeQuizTemplate(pdf_id, questions, ...)`.  `db` stands for the
outcome of the storage layer (the supabase check/update/insert sequence,
collapsed to its first failing operation, or `Except.ok` when it
succeeds).  Every internal `throw` — missing pdf id, empty input, empty
validated list, storage error — is caught by the function's own
`try/catch` and converted to `StoreResult.failure`: the function is total
and never propagates an exception. -/
def storeQuizTemplate (pdf_id : Option String) (questions : List RawQuestion)
    (db : Except String Unit) : StoreResult :=
  if pdf_id.isNone then .failure "PDF ID is required"
  else if questions.isEmpty then .failure "Questions must be a non-empty array"
  else if ((questions.filter storeValid).map normalizeQ).isEmpty then
    .failure "No valid questions after validation"
  else
    match db with
    | .error e => .failure e
    | .ok _ => .success ((questions.filter storeValid).map normalizeQ)

/-- Result of `generateQuizQuestions` as the caller sees it: the validated
questions plus an optional warning. -/
structure GenResult where
  questions : List RawQuestion
  warning : Option String
deriving DecidableEq

/-- The template-storage tail of `generateQuizQuestions` (after
validation): `await storeQuizTemplate(...)` inside a `try`, whose `catch`
would attach the "generated but could not be saved" warning.  Because
`storeQuizTemplate` catches internally and *returns* its failures, the call
always completes normally — modelled by wrapping the (total) call in
`Except.ok`, which makes the warning branch visibly dead code. -/
def generateTail (pdfId : Option String) (validated : List RawQuestion)
    (db : Except String Unit) : GenResult :=
  if pdfId.isSome ∧ validated ≠ [] then
    match (Except.ok (storeQuizTemplate pdfId validated db) :
        Except String StoreResult) with
    | .ok _ => { questions := validated, warning := none }
    | .error _ =>
      { questions := validated
        warning := some "Quiz generated successfully but could not be saved for future use" }
  else { questions := validated, warning := none }

/-- An accepted candidate whose answer index (7) is out of range for its 4
options. -/
def c8Bad : RawQuestion :=
  { question := some "Q?"
    options := some ["a", "b", "c", "d"]
    answer := some (Sum.inl 7)
    correctAnswer := none
    explanation := some "" }

/-- A well-formed candidate. -/
def c8Good : RawQuestion :=
  { question := some "Q?"
    options := some ["a", "b", "c", "d"]
    answer := some (Sum.inl 1)
    correctAnswer := none
    explanation := some "e" }

theorem matchAt_pos {cs : List Char} {n : Nat} (h : matchAt cs = some n) : 0 < n := by
  unfold matchAt at h
  split at h
  · split at h
    · cases h; omega
    · cases h
  · split at h
    · cases h
    · cases h; omega
  · cases h

/-! Basic facts about `stripWS`. -/

theorem stripWS_append (a b : List Char) :
    stripWS (a ++ b) = stripWS a ++ stripWS b := by
  simp [stripWS]

theorem stripWS_dropWhile (l : List Char) :
    stripWS (l.dropWhile jsWhitespace) = stripWS l := by
  induction l with
  | nil => rfl
  | cons c t ih =>
    by_cases h : jsWhitespace c
    · simp [List.dropWhile, h, stripWS, List.filter]
      have := ih
      simpa [stripWS] using this
    · simp [List.dropWhile, h]

theorem stripWS_reverse (l : List Char) :
    stripWS l.reverse = (stripWS l).reverse := by
  simp [stripWS, List.filter_reverse]

theorem stripWS_jsTrim (l : List Char) : stripWS (jsTrim l) = stripWS l := by
  unfold jsTrim
  rw [stripWS_reverse, stripWS_dropWhile, stripWS_reverse, List.reverse_reverse,
    stripWS_dropWhile]

theorem jsTrim_nil_stripWS {l : List Char} (h : jsTrim l = []) : stripWS l = [] := by
  have := stripWS_jsTrim l
  rw [h] at this
  exact this.symm

/-- Invariant of the chunk accumulation loop: the non-whitespace content of
the emitted chunks is the pending chunk's content followed by the units'
content, in order. -/
theorem chunkGo_strip (B : Nat) (ps : List (List Char)) (cur : List Char) :
    stripWS (chunkGo B ps cur).flatten = stripWS cur ++ stripWS ps.flatten := by
  induction ps generalizing cur with
  | nil =>
    by_cases h : (jsTrim cur).length > 0
    · have hstep : chunkGo B [] cur = [jsTrim cur] := by simp [chunkGo, h]
      rw [hstep]
      simp only [List.flatten_cons, List.flatten_nil, List.append_nil]
      rw [stripWS_jsTrim]
      simp [stripWS]
    · have hnil : jsTrim cur = [] :=
        List.length_eq_zero.mp (Nat.eq_zero_of_not_pos h)
      have hstep : chunkGo B [] cur = [] := by simp [chunkGo, h]
      rw [hstep]
      simp only [List.flatten_nil]
      rw [jsTrim_nil_stripWS hnil]
      simp
  | cons p ps ih =>
    have hsp : stripWS [' '] = [] := by decide
    by_cases h : cur.length + p.length > B ∧ cur.length > 0
    · have hstep : chunkGo B (p :: ps) cur = jsTrim cur :: chunkGo B ps (p ++ [' ']) := by
        simp [chunkGo, h]
      rw [hstep, List.flatten_cons, stripWS_append, stripWS_jsTrim, ih]
      simp [List.flatten_cons, stripWS_append, hsp]
    · have hstep : chunkGo B (p :: ps) cur = chunkGo B ps (cur ++ p ++ [' ']) := by
        simp [chunkGo, h]
      rw [hstep, ih]
      simp [List.flatten_cons, stripWS_append, hsp]

/-- Claim **C5** — counterexample.  The claim states that for every input text and
budget, the concatenation of the chunks, ignoring chunk-boundary whitespace,
equals the original text.  It fails already when every whitespace difference
is forgiven: `split` deletes the matched separators, so the sentence-ending
period of `"Hi. Bye"` is gone from every chunk, and the non-whitespace
content of the chunks differs from the non-whitespace content of the input. -/
theorem chunkText_concat_ce :
    stripWS (chunkText ("Hi. Bye".toList) 4000).flatten ≠
      stripWS ("Hi. Bye".toList) := by
  decide

/-- Claim **C5** (amended) — For every input text and every chunk-size budget, the
concatenation of the chunks equals, ignoring whitespace, the concatenation
of the units produced by the separator split — i.e. the chunker loses
exactly the matched separators (sentence-ending `.` and blank-line runs),
nothing else, and keeps every unit in one chunk in the original order. -/
theorem chunkText_concat_amended (text : List Char) (B : Nat) :
    stripWS (chunkText text B).flatten = stripWS (jsSplit text).flatten := by
  have h := chunkGo_strip B (jsSplit text) []
  simpa [chunkText, stripWS] using h

theorem backoffGo_attempts (fuel : Nat) :
    ∀ rc mR : Nat, ∀ d : ℚ, ∀ js : List ℚ, rc ≤ mR → fuel = mR + 1 - rc →
      (backoffGo fuel rc mR d js).1 = mR + 1 - rc := by
  induction fuel with
  | zero => intro rc mR d js hle hf; omega
  | succ fuel ih =>
    intro rc mR d js hle hf
    by_cases h : rc + 1 > mR
    · have : rc = mR := by omega
      simp [backoffGo, h, this]
    · have h1 : rc + 1 ≤ mR := by omega
      have h2 : fuel = mR + 1 - (rc + 1) := by omega
      simp only [backoffGo, if_neg h]
      rw [ih (rc + 1) mR _ _ h1 h2]
      omega

theorem backoffGo_waits (fuel : Nat) :
    ∀ rc mR : Nat, ∀ d : ℚ, ∀ js : List ℚ, rc ≤ mR → fuel = mR + 1 - rc →
      js.length = mR - rc →
      (backoffGo fuel rc mR d js).2 = backoffWaits d js := by
  induction fuel with
  | zero => intro rc mR d js hle hf; omega
  | succ fuel ih =>
    intro rc mR d js hle hf hlen
    by_cases h : rc + 1 > mR
    · have hrc : rc = mR := by omega
      have : js = [] := by
        apply List.eq_nil_of_length_eq_zero
        omega
      simp [backoffGo, h, this, backoffWaits]
    · have h1 : rc + 1 ≤ mR := by omega
      cases js with
      | nil => simp at hlen; omega
      | cons j js' =>
        simp only [backoffGo, if_neg h]
        rw [ih (rc + 1) mR _ _ h1 (by omega) (by simp at hlen ⊢; omega)]
        simp [backoffWaits]

theorem backoffWaits_pos (js : List ℚ) :
    ∀ d : ℚ, 0 < d → (∀ j ∈ js, 4 / 5 ≤ j) →
      ∀ w ∈ backoffWaits d js, 0 < w := by
  induction js with
  | nil => intro d _ _ w hw; simp [backoffWaits] at hw
  | cons j js ih =>
    intro d hd hj w hw
    have hjpos : (0 : ℚ) < j := lt_of_lt_of_le (by norm_num) (hj j (by simp))
    have hnext : 0 < nextDelay d j := by
      have hmin : (0 : ℚ) < if d * 2 ≤ 60000 then d * 2 else (60000 : ℚ) := by
        split
        · linarith
        · norm_num
      exact mul_pos hmin hjpos
    simp only [backoffWaits, List.mem_cons] at hw
    rcases hw with rfl | hw
    · exact hnext
    · exact ih (nextDelay d j) hnext (fun x hx => hj x (by simp [hx])) w hw

theorem backoffWaits_chain (js : List ℚ) :
    ∀ d : ℚ, 0 < d → (∀ j ∈ js, 4 / 5 ≤ j ∧ j < 6 / 5) →
      ∀ k : Nat, k + 1 < (backoffWaits d js).length →
        2 * (backoffWaits d js).getD k 0 ≤ 60000 →
        (backoffWaits d js).getD k 0 < (backoffWaits d js).getD (k + 1) 0 := by
  induction js with
  | nil => intro d _ _ k hk; simp [backoffWaits] at hk
  | cons j js ih =>
    intro d hd hj k hk hcap
    have hjmem := hj j (by simp)
    have hw1 : 0 < nextDelay d j :=
      backoffWaits_pos (j :: js) d hd (fun x hx => (hj x hx).1) _
        (by simp [backoffWaits])
    cases k with
    | zero =>
      -- the next wait doubles an uncapped wait and jitters it by at least 4/5
      simp only [backoffWaits, List.getD_cons_zero, List.getD_cons_succ] at hcap ⊢
      cases js with
      | nil => simp [backoffWaits] at hk
      | cons j2 js' =>
        have hj2 := hj j2 (by simp)
        simp only [backoffWaits, List.getD_cons_zero]
        show nextDelay d j < nextDelay (nextDelay d j) j2
        have expand : nextDelay (nextDelay d j) j2 =
            (if nextDelay d j * 2 ≤ 60000 then nextDelay d j * 2 else (60000 : ℚ)) * j2 :=
          rfl
        rw [expand, if_pos (by linarith)]
        have hstep : nextDelay d j * 2 * (4 / 5) ≤ nextDelay d j * 2 * j2 := by
          apply mul_le_mul_of_nonneg_left hj2.1
          linarith
        linarith
    | succ k =>
      simp only [backoffWaits, List.getD_cons_succ] at hcap ⊢
      have hk' : k + 1 < (backoffWaits (nextDelay d j) js).length := by
        simpa [backoffWaits] using hk
      exact ih (nextDelay d j) hw1 (fun x hx => hj x (by simp [hx])) k hk' hcap

/-- Claim **C4** — counterexample.  The claim says each wait is the *current*
delay — starting from `initialDelayMs` and capped at 60000 — times a jitter
factor in `[0.8, 1.2)`; for the defaults (`initialDelayMs = 1000`) the
first wait would then be below `1000 * 1.2 = 1200` ms.  In the source the
delay is doubled (and capped) *before* the first wait, so with jitter
factor 1 the first wait is 2000 ms, not in `[800, 1200)`. -/
theorem backoff_first_wait_ce :
    (rateLimitRunAlways 5 1000 [1, 1, 1, 1, 1]).2.headD 0 = 2000 ∧
      ¬(rateLimitRunAlways 5 1000 [1, 1, 1, 1, 1]).2.headD 0 < 1200 := by
  have h : (rateLimitRunAlways 5 1000 [1, 1, 1, 1, 1]).2.headD 0 = 2000 := by
    norm_num [rateLimitRunAlways, backoffGo, nextDelay]
  refine ⟨h, ?_⟩
  rw [h]
  norm_num

/-- Claim **C4** (amended) — `withRateLimitRetry` on an always-rate-limited
operation: each wait is `min (delay * 2) 60000 * jitter` with the jittered
value stored back as the new delay (doubling and cap happen *before* the
jitter, already for the first wait); the operation is attempted exactly
`maxRetries + 1` times with `maxRetries` waits between attempts, and the
waits increase strictly as long as the doubling stays below the 60000 ms
cap, given jitter factors in `[0.8, 1.2)`. -/
theorem backoff_run_amended (mR : Nat) (init : ℚ) (js : List ℚ)
    (hinit : 0 < init) (hlen : js.length = mR)
    (hj : ∀ j ∈ js, 4 / 5 ≤ j ∧ j < 6 / 5) :
    (rateLimitRunAlways mR init js).1 = mR + 1 ∧
    (rateLimitRunAlways mR init js).2 = backoffWaits init js ∧
    (rateLimitRunAlways mR init js).2.length = mR ∧
    ∀ k : Nat, k + 1 < (rateLimitRunAlways mR init js).2.length →
      2 * (rateLimitRunAlways mR init js).2.getD k 0 ≤ 60000 →
      (rateLimitRunAlways mR init js).2.getD k 0 <
        (rateLimitRunAlways mR init js).2.getD (k + 1) 0 := by
  have hw : (rateLimitRunAlways mR init js).2 = backoffWaits init js :=
    backoffGo_waits (mR + 1) 0 mR init js (Nat.zero_le _) (by omega) (by omega)
  refine ⟨?_, hw, ?_, ?_⟩
  · exact (backoffGo_attempts (mR + 1) 0 mR init js (Nat.zero_le _) (by omega)).trans
      (by omega)
  · rw [hw]
    have : ∀ d : ℚ, ∀ l : List ℚ, (backoffWaits d l).length = l.length := by
      intro d l
      induction l generalizing d with
      | nil => rfl
      | cons x xs ih => simp [backoffWaits, ih]
    rw [this, hlen]
  · rw [hw]
    exact backoffWaits_chain js init hinit hj

/-- Claim **C4** — witness: defaults-shaped concrete run (`maxRetries = 2`,
`initialDelay = 1000`, jitter factor 1 throughout) makes exactly 3 attempts. -/
theorem backoff_run_amended_witness :
    (rateLimitRunAlways 2 1000 [1, 1]).1 = 2 + 1 :=
  (backoff_run_amended 2 1000 [1, 1] (by norm_num) rfl
    (by
      intro j hj
      simp only [List.mem_cons, List.not_mem_nil, or_false] at hj
      rcases hj with rfl | rfl <;> norm_num)).1

/-! Permutation facts about the shuffle and the dedup. -/

theorem getD_cons_set_perm (t : List Nat) :
    ∀ i x, i < t.length → List.Perm (t.getD i 0 :: t.set i x) (x :: t) := by
  induction t with
  | nil => intro i x h; simp at h
  | cons a t ih =>
    intro i x h
    cases i with
    | zero =>
      simp only [List.getD_cons_zero, List.set_cons_zero]
      exact List.Perm.swap x a t
    | succ i =>
      have h' : i < t.length := by simpa using h
      simp only [List.getD_cons_succ, List.set_cons_succ]
      exact ((List.Perm.swap a (t.getD i 0) _).trans ((ih i x h').cons a)).trans
        (List.Perm.swap x a t)

theorem listSwap_perm : ∀ (l : List Nat) (i j : Nat), i < l.length → j < l.length →
    List.Perm (listSwap l i j) l := by
  intro l
  induction l with
  | nil => intro i j hi _; simp at hi
  | cons a t ih =>
    intro i j hi hj
    cases i with
    | zero =>
      cases j with
      | zero =>
        simp only [listSwap, List.getD_cons_zero, List.set_cons_zero]
        exact List.Perm.refl _
      | succ j =>
        have hj' : j < t.length := by simpa using hj
        simp only [listSwap, List.getD_cons_zero, List.getD_cons_succ,
          List.set_cons_zero, List.set_cons_succ]
        exact getD_cons_set_perm t j a hj'
    | succ i =>
      have hi' : i < t.length := by simpa using hi
      cases j with
      | zero =>
        simp only [listSwap, List.getD_cons_zero, List.getD_cons_succ,
          List.set_cons_zero, List.set_cons_succ]
        exact getD_cons_set_perm t i a hi'
      | succ j =>
        have hj' : j < t.length := by simpa using hj
        simp only [listSwap, List.getD_cons_succ, List.set_cons_succ]
        exact (ih i j hi' hj').cons a

theorem fyGo_perm : ∀ (i : Nat) (l rs : List Nat), i < l.length → List.Perm (fyGo l i rs) l := by
  intro i
  induction i with
  | zero => intro l rs _; exact List.Perm.refl _
  | succ i ih =>
    intro l rs h
    have hj : rs.headD 0 % (i + 2) < l.length :=
      lt_of_lt_of_le (Nat.mod_lt _ (by omega)) (by omega)
    have hswap := listSwap_perm l (i + 1) (rs.headD 0 % (i + 2)) h hj
    have hlen := hswap.length_eq
    have hrec := ih (listSwap l (i + 1) (rs.headD 0 % (i + 2))) rs.tail (by omega)
    exact hrec.trans hswap

theorem fisherYates_perm (l rs : List Nat) : List.Perm (fisherYates l rs) l := by
  cases l with
  | nil => exact List.Perm.refl _
  | cons a t =>
    apply fyGo_perm
    simp [fisherYates]

theorem dedupFirstGo_eq_self : ∀ (l seen : List Nat), l.Nodup → (∀ x ∈ l, x ∉ seen) →
    dedupFirstGo l seen = l := by
  intro l
  induction l with
  | nil => intro seen _ _; rfl
  | cons x xs ih =>
    intro seen hnd hno
    have hx : x ∉ seen := hno x (List.mem_cons_self x xs)
    simp only [dedupFirstGo, if_neg hx]
    congr 1
    apply ih (x :: seen) (List.Nodup.of_cons hnd)
    intro y hy
    simp only [List.mem_cons, not_or]
    constructor
    · intro hyx
      subst hyx
      exact (List.nodup_cons.mp hnd).1 hy
    · exact hno y (List.mem_cons_of_mem x hy)

theorem dedupFirst_eq_self {l : List Nat} (h : l.Nodup) : dedupFirst l = l :=
  dedupFirstGo_eq_self l [] h (by simp)

/-! Facts about the candidate pool and the selection. -/

theorem available_facts (n : Nat) (used : List Nat) :
    ((List.range n).filter (fun i => decide (i ∉ used))).Nodup ∧
    ∀ i ∈ (List.range n).filter (fun i => decide (i ∉ used)), i < n ∧ i ∉ used := by
  constructor
  · exact List.Nodup.filter _ (List.nodup_range n)
  · intro i hi
    have h1 := List.mem_filter.mp hi
    exact ⟨List.mem_range.mp h1.1, of_decide_eq_true h1.2⟩

theorem available_length (n : Nat) (used : List Nat) :
    n ≤ ((List.range n).filter (fun i => decide (i ∉ used))).length + used.length := by
  have hsub : List.range n ⊆
      ((List.range n).filter (fun i => decide (i ∉ used))) ++ used := by
    intro i hi
    by_cases hu : i ∈ used
    · exact List.mem_append_right _ hu
    · exact List.mem_append_left _ (List.mem_filter.mpr ⟨hi, decide_eq_true hu⟩)
  have hle := (List.Nodup.subperm (List.nodup_range n) hsub).length_le
  simpa using hle

/-- The candidate pool is duplicate-free, in range, and holds at least
`count` indices, in all three branches (plain, top-up, reset). -/
theorem rotPool_spec (n count : Nat) (used usedShuffled : List Nat)
    (hcount : count < n) (hnd : used.Nodup) (hub : ∀ u ∈ used, u < n)
    (hperm : List.Perm usedShuffled used) :
    (rotPool n count used usedShuffled).1.Nodup ∧
    (∀ i ∈ (rotPool n count used usedShuffled).1, i < n) ∧
    count ≤ (rotPool n count used usedShuffled).1.length := by
  have hA := available_facts n used
  unfold rotPool
  by_cases h1 : ((List.range n).filter (fun i => decide (i ∉ used))).length < count
  · by_cases h2 : 2 * ((List.range n).filter (fun i => decide (i ∉ used))).length < count
    · rw [if_pos h1, if_pos h2]
      refine ⟨List.nodup_range n, fun i hi => List.mem_range.mp hi, ?_⟩
      simpa using Nat.le_of_lt hcount
    · rw [if_pos h1, if_neg h2]
      have hshufnd : usedShuffled.Nodup := (hperm.nodup_iff).mpr hnd
      have htake_sub : ∀ x ∈ usedShuffled.take
          (count - ((List.range n).filter (fun i => decide (i ∉ used))).length),
          x ∈ used := fun x hx => hperm.mem_iff.mp (List.mem_of_mem_take hx)
      refine ⟨?_, ?_, ?_⟩
      · refine List.Nodup.append hA.1
          (List.Nodup.sublist (List.take_sublist _ _) hshufnd) ?_
        intro a ha hb
        exact (hA.2 a ha).2 (htake_sub a hb)
      · intro i hi
        rcases List.mem_append.mp hi with h | h
        · exact (hA.2 i h).1
        · exact hub i (htake_sub i h)
      · have hlen1 := available_length n used
        have hlen2 := hperm.length_eq
        simp only [List.length_append, List.length_take]
        omega
  · rw [if_neg h1]
    exact ⟨hA.1, fun i hi => (hA.2 i hi).1, Nat.le_of_not_lt h1⟩

/-- Taking the first `count` of the Fisher–Yates shuffle of a
duplicate-free in-range pool with at least `count` entries gives exactly
`count` distinct in-range indices drawn from the pool. -/
theorem take_shuffle_spec (pool : List Nat) (count n : Nat) (rand : List Nat)
    (hnd : pool.Nodup) (hmem : ∀ i ∈ pool, i < n) (hlen : count ≤ pool.length) :
    ((fisherYates pool rand).take count).length = count ∧
    ((fisherYates pool rand).take count).Nodup ∧
    (∀ i ∈ (fisherYates pool rand).take count, i < n) ∧
    (∀ i ∈ (fisherYates pool rand).take count, i ∈ pool) := by
  have hperm := fisherYates_perm pool rand
  have hsub : ∀ i ∈ (fisherYates pool rand).take count, i ∈ pool := by
    intro i hi
    exact hperm.mem_iff.mp (List.mem_of_mem_take hi)
  refine ⟨?_, ?_, fun i hi => hmem i (hsub i hi), hsub⟩
  · rw [List.length_take, hperm.length_eq]
    omega
  · exact List.Nodup.sublist (List.take_sublist _ _) (hperm.nodup_iff.mpr hnd)

/-- Unfolding of `rotSelect` in the `count < questions.length` branch. -/
theorem rotSelect_eq {α : Type} [Inhabited α] (qs : List α) (count : Nat)
    (used usedShuffled rand : List Nat) (hcount : count < qs.length) :
    rotSelect qs count used usedShuffled rand =
      { questions := ((fisherYates (rotPool qs.length count used usedShuffled).1
            rand).take count).map (fun i => qs.getD i default)
        selectedIndices := List.range (((fisherYates
            (rotPool qs.length count used usedShuffled).1 rand).take count).map
            (fun i => qs.getD i default)).length
        templateSelectedIndices :=
          some ((fisherYates (rotPool qs.length count used usedShuffled).1
            rand).take count)
        newUsed := dedupFirst ((rotPool qs.length count used usedShuffled).2 ++
          (fisherYates (rotPool qs.length count used usedShuffled).1
            rand).take count) } := by
  unfold rotSelect
  rw [if_neg (not_le.mpr hcount)]

/-- Claim **C2** — For every template with more questions than the requested
count (given the invariant of the persisted rotation state: a
duplicate-free list of in-range indices, with the engine's random re-sort
being a permutation of it), `generateQuizFromTemplate` selects exactly
`count` distinct template indices in range; and whenever at least `count`
unused indices remain, none of the selected indices was previously used. -/
theorem rotation_select_count_distinct {α : Type} [Inhabited α] (qs : List α)
    (count : Nat) (used usedShuffled rand : List Nat)
    (hcount : count < qs.length) (hnd : used.Nodup)
    (hub : ∀ u ∈ used, u < qs.length) (hperm : List.Perm usedShuffled used) :
    ((rotSelect qs count used usedShuffled rand).templateSelectedIndices.getD []).length
        = count ∧
    ((rotSelect qs count used usedShuffled rand).templateSelectedIndices.getD []).Nodup ∧
    (∀ i ∈ (rotSelect qs count used usedShuffled rand).templateSelectedIndices.getD [],
      i < qs.length) ∧
    (count ≤ ((List.range qs.length).filter (fun i => decide (i ∉ used))).length →
      ∀ i ∈ (rotSelect qs count used usedShuffled rand).templateSelectedIndices.getD [],
        i ∉ used) := by
  have hpool := rotPool_spec qs.length count used usedShuffled hcount hnd hub hperm
  have hsel := take_shuffle_spec (rotPool qs.length count used usedShuffled).1 count
    qs.length rand hpool.1 hpool.2.1 hpool.2.2
  rw [rotSelect_eq qs count used usedShuffled rand hcount]
  simp only [Option.getD_some]
  refine ⟨hsel.1, hsel.2.1, hsel.2.2.1, ?_⟩
  intro hge i hi
  have hpool1 : (rotPool qs.length count used usedShuffled).1 =
      (List.range qs.length).filter (fun i => decide (i ∉ used)) := by
    unfold rotPool
    rw [if_neg (not_lt.mpr hge)]
  have hmem := hsel.2.2.2 i hi
  rw [hpool1] at hmem
  exact ((available_facts qs.length used).2 i hmem).2

/-- Claim **C2** — witness: a 5-question template, `count = 2`, with index 0
already used. -/
theorem rotation_select_count_distinct_witness :
    ((rotSelect (List.range 5) 2 [0] [0] [4, 3, 2, 1]).templateSelectedIndices.getD
        []).length = 2 ∧
    ((rotSelect (List.range 5) 2 [0] [0]
        [4, 3, 2, 1]).templateSelectedIndices.getD []).Nodup ∧
    (∀ i ∈ (rotSelect (List.range 5) 2 [0] [0]
        [4, 3, 2, 1]).templateSelectedIndices.getD [], i < (List.range 5).length) ∧
    (2 ≤ ((List.range (List.range 5).length).filter
        (fun i => decide (i ∉ [0]))).length →
      ∀ i ∈ (rotSelect (List.range 5) 2 [0] [0]
        [4, 3, 2, 1]).templateSelectedIndices.getD [], i ∉ [0]) :=
  rotation_select_count_distinct (List.range 5) 2 [0] [0] [4, 3, 2, 1]
    (by decide) (by decide) (by decide) (by decide)

/-- Claim **C1** — For every template with more questions than the requested
count, the selection result reports, in `metadata.templateSelectedIndices`,
the served questions' indices in the template's own numbering (indexing the
template at the reported index yields the served question), while the
returned `selectedIndices` field is the UI remap `0..count-1`; and the
Attempt built by `onQuizComplete` records exactly those original template
indices, not the UI remap. -/
theorem rotation_template_indices_recorded {α : Type} [Inhabited α] (qs : List α)
    (count : Nat) (used usedShuffled rand : List Nat) (s : Nat)
    (hcount : count < qs.length) (hnd : used.Nodup)
    (hub : ∀ u ∈ used, u < qs.length) (hperm : List.Perm usedShuffled used) :
    ∃ tsi : List Nat,
      (rotSelect qs count used usedShuffled rand).templateSelectedIndices = some tsi ∧
      (rotSelect qs count used usedShuffled rand).selectedIndices = List.range count ∧
      (mkAttempt (rotSelect qs count used usedShuffled rand).toQuizData
          s).selected_question_indices = tsi ∧
      tsi.length = count ∧
      ∀ k, k < count →
        tsi.getD k 0 < qs.length ∧
        (rotSelect qs count used usedShuffled rand).questions.getD k default =
          qs.getD (tsi.getD k 0) default := by
  have hpool := rotPool_spec qs.length count used usedShuffled hcount hnd hub hperm
  have hsel := take_shuffle_spec (rotPool qs.length count used usedShuffled).1 count
    qs.length rand hpool.1 hpool.2.1 hpool.2.2
  rw [rotSelect_eq qs count used usedShuffled rand hcount]
  dsimp only [RotSelection.toQuizData, mkAttempt, recordedIndices]
  refine ⟨(fisherYates (rotPool qs.length count used usedShuffled).1 rand).take count,
    rfl, ?_, rfl, hsel.1, ?_⟩
  · rw [List.length_map, hsel.1]
  · intro k hk
    have hklen : k < ((fisherYates (rotPool qs.length count used usedShuffled).1
        rand).take count).length := by
      rw [hsel.1]; exact hk
    have hklen2 : k < (((fisherYates (rotPool qs.length count used usedShuffled).1
        rand).take count).map (fun i => qs.getD i default)).length := by
      rw [List.length_map]; exact hklen
    constructor
    · rw [List.getD_eq_getElem _ _ hklen]
      exact hsel.2.2.1 _ (List.getElem_mem hklen)
    · rw [List.getD_eq_getElem _ _ hklen2, List.getD_eq_getElem _ _ hklen,
        List.getElem_map]

/-- Claim **C1** — witness: a 7-question template, `count = 3`, empty rotation
state, recorded attempt score 2. -/
theorem rotation_template_indices_recorded_witness :
    ∃ tsi : List Nat,
      (rotSelect (List.range 7) 3 [] [] [6, 5, 4, 3, 2, 1]).templateSelectedIndices
          = some tsi ∧
      (rotSelect (List.range 7) 3 [] [] [6, 5, 4, 3, 2, 1]).selectedIndices
          = List.range 3 ∧
      (mkAttempt (rotSelect (List.range 7) 3 [] []
          [6, 5, 4, 3, 2, 1]).toQuizData 2).selected_question_indices = tsi ∧
      tsi.length = 3 ∧
      ∀ k, k < 3 →
        tsi.getD k 0 < (List.range 7).length ∧
        (rotSelect (List.range 7) 3 [] [] [6, 5, 4, 3, 2, 1]).questions.getD k default =
          (List.range 7).getD (tsi.getD k 0) default :=
  rotation_template_indices_recorded (List.range 7) 3 [] [] [6, 5, 4, 3, 2, 1] 2
    (by decide) (by decide) (by decide) (by decide)

/-- Invariant of repeated rotation-selection runs: while the persisted used
list plus the questions still to be served fit into the template
(`used.length + rands.length * count ≤ qs.length`), every call stays in the
plain branch, so the calls' selections are `count`-sized, duplicate-free,
in range, disjoint from the starting used list and pairwise disjoint, and
the final stored list is the starting one followed by everything served. -/
theorem rotRun_invariant {α : Type} [Inhabited α] (qs : List α) (count : Nat)
    (hcount : 0 < count) (hlt : count < qs.length) :
    ∀ (rands : List (List Nat)) (used : List Nat),
      used.Nodup → (∀ u ∈ used, u < qs.length) →
      used.length + rands.length * count ≤ qs.length →
      (∀ s ∈ (rotRun qs count rands used).1,
        s.length = count ∧ s.Nodup ∧ (∀ i ∈ s, i < qs.length) ∧ ∀ i ∈ s, i ∉ used) ∧
      (rotRun qs count rands used).1.Pairwise (fun s t => ∀ x ∈ s, x ∉ t) ∧
      (rotRun qs count rands used).2 = used ++ (rotRun qs count rands used).1.flatten ∧
      (rotRun qs count rands used).2.Nodup ∧
      (∀ u ∈ (rotRun qs count rands used).2, u < qs.length) ∧
      (rotRun qs count rands used).2.length = used.length + rands.length * count := by
  intro rands
  induction rands with
  | nil =>
    intro used hnd hub _
    refine ⟨?_, ?_, ?_, ?_, ?_, ?_⟩
    · intro s hs
      simp [rotRun] at hs
    · simp [rotRun]
    · simp [rotRun]
    · simpa [rotRun] using hnd
    · simpa [rotRun] using hub
    · simp [rotRun]
  | cons r rs ih =>
    intro used hnd hub hbound
    have hge : count ≤
        ((List.range qs.length).filter (fun i => decide (i ∉ used))).length := by
      have hAlen := available_length qs.length used
      have hmul : count ≤ (rs.length + 1) * count := by
        have h1 := Nat.mul_le_mul_right count (show 1 ≤ rs.length + 1 by omega)
        simpa using h1
      simp only [List.length_cons] at hbound
      omega
    have hpool1 : rotPool qs.length count used used =
        ((List.range qs.length).filter (fun i => decide (i ∉ used)), used) := by
      unfold rotPool
      rw [if_neg (not_lt.mpr hge)]
    have hAfacts := available_facts qs.length used
    have hsel := take_shuffle_spec
      ((List.range qs.length).filter (fun i => decide (i ∉ used))) count
      qs.length r hAfacts.1 (fun i hi => (hAfacts.2 i hi).1) hge
    -- the indices served by this call
    set s1 := ((fisherYates
      ((List.range qs.length).filter (fun i => decide (i ∉ used))) r).take count)
      with hs1
    have hs1notused : ∀ i ∈ s1, i ∉ used := by
      intro i hi
      exact (hAfacts.2 i (hsel.2.2.2 i hi)).2
    have hdisj : List.Disjoint used s1 := fun a ha hb => (hs1notused a hb) ha
    have hnd' : (used ++ s1).Nodup := List.Nodup.append hnd hsel.2.1 hdisj
    have hstep : rotSelect qs count used used r =
        { questions := s1.map (fun i => qs.getD i default)
          selectedIndices := List.range (s1.map (fun i => qs.getD i default)).length
          templateSelectedIndices := some s1
          newUsed := used ++ s1 } := by
      rw [rotSelect_eq qs count used used r hlt, hpool1]
      dsimp only
      rw [← hs1, dedupFirst_eq_self hnd']
    have hub' : ∀ u ∈ used ++ s1, u < qs.length := by
      intro u hu
      rcases List.mem_append.mp hu with h | h
      · exact hub u h
      · exact hsel.2.2.1 u h
    have hlen' : (used ++ s1).length + rs.length * count ≤ qs.length := by
      have hs1len : s1.length = count := hsel.1
      have hexp : (rs.length + 1) * count = rs.length * count + count := by ring
      simp only [List.length_append, List.length_cons] at hbound ⊢
      omega
    have hIH := ih (used ++ s1) hnd' hub' hlen'
    have hrun : rotRun qs count (r :: rs) used =
        (s1 :: (rotRun qs count rs (used ++ s1)).1,
          (rotRun qs count rs (used ++ s1)).2) := by
      simp only [rotRun, hstep, Option.getD_some]
    rw [hrun]
    refine ⟨?_, ?_, ?_, ?_, ?_, ?_⟩
    · intro s hs
      rcases List.mem_cons.mp hs with rfl | hs
      · exact ⟨hsel.1, hsel.2.1, hsel.2.2.1, hs1notused⟩
      · have h := hIH.1 s hs
        exact ⟨h.1, h.2.1, h.2.2.1, fun i hi hiu =>
          h.2.2.2 i hi (List.mem_append_left _ hiu)⟩
    · rw [List.pairwise_cons]
      refine ⟨?_, hIH.2.1⟩
      intro t ht x hx hxt
      exact (hIH.1 t ht).2.2.2 x hxt (List.mem_append_right _ hx)
    · rw [hIH.2.2.1]
      simp [List.append_assoc]
    · exact hIH.2.2.2.1
    · exact hIH.2.2.2.2.1
    · rw [hIH.2.2.2.2.2]
      simp only [List.length_append, hsel.1, List.length_cons]
      ring

/-- Claim **C3** — counterexample.  A 21-question template with `count = 10` and
identity shuffles: the first two attempts serve indices 0–9 and 10–19; at
the third attempt only one unused index (20) remains, which is below
`count * 0.5`, so the selector resets the history and serves 0–9 again.
Index 0 is served a second time (first and third attempt) although index 20
has never been served, refuting "every template index is served at least
once before any index is served a second time". -/
theorem rotation_coverage_ce :
    0 ∈ ((rotRun (List.range 21) 10 [idRand 21, idRand 11, idRand 21] []).1.getD 0 []) ∧
    0 ∈ ((rotRun (List.range 21) 10 [idRand 21, idRand 11, idRand 21] []).1.getD 2 []) ∧
    20 ∉ (rotRun (List.range 21) 10 [idRand 21, idRand 11, idRand 21] []).1.flatten := by
  decide

/-- Claim **C3** (amended) — Repeated selections are pairwise disjoint `count`-sized
duplicate-free in-range sets as long as the pool is not exhausted
(`number of attempts * count ≤ pool size`); in particular, when the number
of attempts times `count` equals the template size exactly, every template
index is served exactly once across those attempts (full coverage before
any repeat).  When `count` does not divide the template size, the reset at
50 % exhaustion can re-serve indices while up to `count - 1` indices have
never been served, as the counterexample shows. -/
theorem rotation_full_cycle_amended {α : Type} [Inhabited α] (qs : List α)
    (count : Nat) (rands : List (List Nat))
    (hcount : 0 < count) (hlt : count < qs.length)
    (hcov : rands.length * count ≤ qs.length) :
    (∀ s ∈ (rotRun qs count rands []).1,
      s.length = count ∧ s.Nodup ∧ ∀ i ∈ s, i < qs.length) ∧
    (rotRun qs count rands []).1.Pairwise (fun s t => ∀ x ∈ s, x ∉ t) ∧
    (qs.length = rands.length * count →
      ∀ x, x < qs.length → x ∈ (rotRun qs count rands []).1.flatten) := by
  have hinv := rotRun_invariant qs count hcount hlt rands []
    (by simp) (by simp) (by simpa using hcov)
  refine ⟨fun s hs => ⟨(hinv.1 s hs).1, (hinv.1 s hs).2.1, (hinv.1 s hs).2.2.1⟩,
    hinv.2.1, ?_⟩
  intro hfull x hx
  have hL : (rotRun qs count rands []).2 = (rotRun qs count rands []).1.flatten := by
    simpa using hinv.2.2.1
  have hnodupL : (rotRun qs count rands []).1.flatten.Nodup := by
    rw [← hL]; exact hinv.2.2.2.1
  have hsubL : (rotRun qs count rands []).1.flatten ⊆ List.range qs.length := by
    intro y hy
    rw [← hL] at hy
    exact List.mem_range.mpr (hinv.2.2.2.2.1 y hy)
  have hlenL : (rotRun qs count rands []).1.flatten.length = qs.length := by
    rw [← hL]
    rw [hinv.2.2.2.2.2]
    simpa using hfull.symm
  have hsubperm := List.Nodup.subperm hnodupL hsubL
  have hperm := hsubperm.perm_of_length_le (by simp [hlenL])
  exact hperm.mem_iff.mpr (List.mem_range.mpr hx)

/-- Claim **C3** (amended) — witness: a 4-question template, `count = 2`, two
attempts with identity shuffles: full coverage, no repeats. -/
theorem rotation_full_cycle_amended_witness :
    (∀ s ∈ (rotRun (List.range 4) 2 [idRand 4, idRand 2] []).1,
      s.length = 2 ∧ s.Nodup ∧ ∀ i ∈ s, i < (List.range 4).length) ∧
    (rotRun (List.range 4) 2 [idRand 4, idRand 2] []).1.Pairwise
      (fun s t => ∀ x ∈ s, x ∉ t) ∧
    ((List.range 4).length = [idRand 4, idRand 2].length * 2 →
      ∀ x, x < (List.range 4).length →
        x ∈ (rotRun (List.range 4) 2 [idRand 4, idRand 2] []).1.flatten) :=
  rotation_full_cycle_amended (List.range 4) 2 [idRand 4, idRand 2]
    (by decide) (by decide) (by decide)

/-- Claim **C10** — Correctness is decided by string equality between the selected
option's text and the option text at the correct answer index, not by
position: for any question and any position `p` whose text equals the text
at the correct index, selecting position `p` (i.e. the selected answer is
that option's text) increments the score by 1; a question that times out
with no selection contributes 0. -/
theorem score_by_option_text (q : Question) (p : Nat)
    (hp : p < q.options.length) (ha : q.answer < q.options.length)
    (heq : q.options.getD p "" = q.options.getD q.answer "") :
    scoreInc q (some (q.options.getD p "")) = 1 ∧ scoreInc q none = 0 := by
  have hsome : q.options[q.answer]? = some (q.options.getD q.answer "") := by
    rw [List.getD_eq_getElem _ _ ha]
    exact List.getElem?_eq_getElem ha
  have hred : scoreInc q (some (q.options.getD q.answer "")) =
      if q.options[q.answer]? = some (q.options.getD q.answer "") then 1 else 0 := rfl
  refine ⟨?_, rfl⟩
  rw [heq, hred, hsome, if_pos rfl]

/-- Claim **C10** — witness: the duplicated option text of `c10q` at position 2
scores although the correct index is 0. -/
theorem score_by_option_text_witness :
    scoreInc c10q (some (c10q.options.getD 2 "")) = 1 ∧ scoreInc c10q none = 0 :=
  score_by_option_text c10q 2 (by decide) (by decide) (by decide)

/-- Claim **C6** — the completion side effect is *not* guarded by a single-shot
flag: on the last question, `handleNextQuestion` calls `onQuizComplete`
without changing any component state, so a second completion trigger (for
example the 60-second timer expiring while the user clicks "Next") runs the
attempt-record side effect again.  Two `next` events at the final question
record two Attempts, where the claim requires exactly one. -/
theorem quiz_double_completion_records_two_attempts :
    (quizRun c6Quiz initQuizState
      [QuizEvent.select "A", QuizEvent.next, QuizEvent.next]).attempts.length = 2 := by
  decide

/-- Claim **C7** — counterexample.  A quiz generated from a five-question template
presents 5 questions, but `onQuizComplete` hardcodes `total_questions: 10`,
so the recorded Attempt has 5 selected indices and `total_questions = 10`:
the claimed equality fails. -/
theorem attempt_total_mismatch_ce :
    (quizRun c7Quiz5 initQuizState (List.replicate 5 QuizEvent.next)).attempts.length
        = 1 ∧
    ((quizRun c7Quiz5 initQuizState
        (List.replicate 5 QuizEvent.next)).attempts.getD 0
        default).total_questions = 10 ∧
    ((quizRun c7Quiz5 initQuizState
        (List.replicate 5 QuizEvent.next)).attempts.getD 0
        default).selected_question_indices.length = 5 := by
  decide

/-- Claim **C7** (amended) — `total_questions` is the hardcoded literal 10, and the
recorded indices are the quiz's index list, so the claimed equality holds
exactly for quizzes that record 10 indices; the Attempt's `score` and
`correct_answers` both carry the number of correct answers.  The 7-of-10
scenario of the claim is the witness. -/
theorem attempt_indices_length_eq_total {α : Type} (quiz : QuizData α) (s : Nat)
    (h10 : (recordedIndices quiz.selectedIndices quiz.templateSelectedIndices).length
      = 10) :
    (mkAttempt quiz s).selected_question_indices.length =
      (mkAttempt quiz s).total_questions ∧
    (mkAttempt quiz s).score = s ∧ (mkAttempt quiz s).correct_answers = s ∧
    (mkAttempt quiz s).total_questions = 10 := by
  refine ⟨?_, rfl, rfl, rfl⟩
  simpa [mkAttempt] using h10

/-- Claim **C7** — witness: a completed 10-question quiz with 7 correct answers
yields one Attempt with `score = 7`, `total_questions = 10` and 10 recorded
indices. -/
theorem attempt_indices_length_eq_total_witness :
    (mkAttempt c7Quiz10 7).selected_question_indices.length =
      (mkAttempt c7Quiz10 7).total_questions ∧
    (mkAttempt c7Quiz10 7).score = 7 ∧ (mkAttempt c7Quiz10 7).correct_answers = 7 ∧
    (mkAttempt c7Quiz10 7).total_questions = 10 :=
  attempt_indices_length_eq_total c7Quiz10 7 (by decide)

/-- Claim **C8** — counterexample.  A candidate with 4 options and numeric answer
7 passes both the generation-time filter and the store filter although its
answer index is out of range: the claim that accepted candidates always
have an in-bounds answer index is false (the filters check only presence
and type, not range). -/
theorem validation_range_ce :
    [c8Bad].filter openaiValidate = [c8Bad] ∧ storeValid c8Bad = true ∧
      answerInRange c8Bad = false := by
  decide

/-- Claim **C8** (amended) — generation-time validation accepts exactly the
candidates with a string question, exactly 4 options, an answer *present*
of number-or-string type (no range check) and a string explanation;
invalid candidates are dropped, not fixed (the kept list is a sublist of
the input, elements unchanged), and the store's normalization copies the
accepted answer verbatim. -/
theorem validation_amended (qs : List RawQuestion) :
    (qs.filter openaiValidate).Sublist qs ∧
    (∀ q ∈ qs.filter openaiValidate,
      q.question.isSome ∧ (∃ l, q.options = some l ∧ l.length = 4) ∧
      q.answer.isSome ∧ q.explanation.isSome) ∧
    (∀ q : RawQuestion, storeValid q →
      (normalizeQ q).answer = if q.answer.isSome then q.answer else q.correctAnswer) := by
  refine ⟨List.filter_sublist _, ?_, fun q _ => rfl⟩
  intro q hq
  have h := List.of_mem_filter hq
  simp only [openaiValidate, Bool.and_eq_true] at h
  refine ⟨h.1.1.1, ?_, h.1.2, h.2⟩
  rcases hop : q.options with _ | l
  · rw [hop] at h
    exact absurd h.1.1.2 (by simp)
  · rw [hop] at h
    exact ⟨l, rfl, by simpa using h.1.1.2⟩

/-- Claim **C8** — witness: the amended characterization applied to the singleton
list holding a well-formed candidate. -/
theorem validation_amended_witness :
    ([c8Good].filter openaiValidate).Sublist [c8Good] ∧
    (∀ q ∈ [c8Good].filter openaiValidate,
      q.question.isSome ∧ (∃ l, q.options = some l ∧ l.length = 4) ∧
      q.answer.isSome ∧ q.explanation.isSome) ∧
    (∀ q : RawQuestion, storeValid q →
      (normalizeQ q).answer = if q.answer.isSome then q.answer else q.correctAnswer) :=
  validation_amended [c8Good]

/-- Claim **C9** — counterexample.  On a storage failure the Template Store does
return the structured `{error}` object instead of throwing — but precisely
because it never throws, the caller's `catch` never runs and the generation
result carries *no* warning, contradicting the claimed "together with a
warning that the quiz was generated but could not be saved". -/
theorem store_warning_ce :
    storeQuizTemplate (some "pdf1") [c8Good] (Except.error "db down") =
      StoreResult.failure "db down" ∧
    (generateTail (some "pdf1") [c8Good] (Except.error "db down")).questions
      = [c8Good] ∧
    (generateTail (some "pdf1") [c8Good] (Except.error "db down")).warning = none := by
  decide

/-- Claim **C9** (amended) — when persisting fails, the Template Store returns
the structured failure object `{error}` rather than throwing, and quiz
generation still returns the generated questions in-memory — but without
any warning: the warning branch of the caller is unreachable, so the user
is *not* told that the quiz could not be saved. -/
theorem store_failure_soft_amended (pdfId : Option String)
    (qs : List RawQuestion) (msg : String)
    (hpdf : pdfId.isSome) (hqs : qs ≠ []) (hval : qs.filter storeValid ≠ []) :
    storeQuizTemplate pdfId qs (Except.error msg) = StoreResult.failure msg ∧
    (generateTail pdfId qs (Except.error msg)).questions = qs ∧
    (generateTail pdfId qs (Except.error msg)).warning = none := by
  have h1 : storeQuizTemplate pdfId qs (Except.error msg) =
      StoreResult.failure msg := by
    cases pdfId with
    | none => simp at hpdf
    | some v =>
      unfold storeQuizTemplate
      rw [if_neg (by simp), if_neg (by simpa [List.isEmpty_iff] using hqs),
        if_neg (by simp [List.isEmpty_iff, hval])]
  have h2 : generateTail pdfId qs (Except.error msg) =
      { questions := qs, warning := none } := by
    unfold generateTail
    rw [if_pos ⟨hpdf, hqs⟩]
  exact ⟨h1, by rw [h2], by rw [h2]⟩

/-- Claim **C9** — witness: a concrete failing store. -/
theorem store_failure_soft_amended_witness :
    storeQuizTemplate (some "p") [c8Good] (Except.error "boom") =
      StoreResult.failure "boom" ∧
    (generateTail (some "p") [c8Good] (Except.error "boom")).questions = [c8Good] ∧
    (generateTail (some "p") [c8Good] (Except.error "boom")).warning = none :=
  store_failure_soft_amended (some "p") [c8Good] "boom" (by decide) (by decide)
    (by decide)

end QuizApp
